import Mathlib

/-
Verification of the parking-space estimator (parking_calc.py).

Coordinates are (longitude, latitude) pairs embedded as rationals; Python
floats are modelled by exact rational arithmetic.  The scan-line while
loops of the packing engine are embedded with an explicit fuel parameter:
a loop that exhausts its fuel returns `none`, so termination of a loop is
the statement that some fuel yields `some`.
-/

/-- A planar point: (x, y) = (longitude, latitude) in degrees. -/
structure Pt where
  x : ℚ
  y : ℚ
deriving DecidableEq, Repr

/-- A parking space footprint: the explicit closed 5-point ring produced by
the packing engine (`space_coords` in the source). -/
abbrev SpaceCoords := List Pt

/-- Axis-aligned bounding box, `(minx, miny, maxx, maxy)` as returned by
shapely `Polygon.bounds`. -/
structure Bounds where
  minx : ℚ
  miny : ℚ
  maxx : ℚ
  maxy : ℚ
deriving DecidableEq, Repr

/-- Bounding box of a vertex list: coordinate-wise min/max (shapely
`Polygon.bounds`). -/
def polyBounds : List Pt → Bounds
  | [] => ⟨0, 0, 0, 0⟩
  | p :: ps =>
    ps.foldl (fun b q => ⟨min b.minx q.x, min b.miny q.y, max b.maxx q.x, max b.maxy q.y⟩)
      ⟨p.x, p.y, p.x, p.y⟩

/-- Whether point `p` lies on the closed segment from `a` to `b`. -/
def onSeg (a b p : Pt) : Bool :=
  decide ((b.x - a.x) * (p.y - a.y) = (b.y - a.y) * (p.x - a.x) ∧
    min a.x b.x ≤ p.x ∧ p.x ≤ max a.x b.x ∧ min a.y b.y ≤ p.y ∧ p.y ≤ max a.y b.y)

/-- One edge test of the even-odd crossing rule: does the horizontal ray from
`p` cross edge `a`–`b`. -/
def edgeCross (a b p : Pt) : Bool :=
  decide (((a.y ≤ p.y ∧ p.y < b.y) ∨ (b.y ≤ p.y ∧ p.y < a.y)) ∧
    p.x < a.x + (b.x - a.x) * (p.y - a.y) / (b.y - a.y))

/-- Modelled from the spec: the point-in-polygon test used by the packing
engine ("a rectangle is accepted iff its centroid lies inside the polygon",
shapely `Polygon.contains`, which tests strict interior membership and is not
part of the repository source).  Even-odd crossing rule over the closed ring,
with boundary points excluded. -/
def insidePoly (vs : List Pt) (p : Pt) : Bool :=
  let es := vs.zip vs.tail
  if es.any (fun e => onSeg e.1 e.2 p) then false
  else (es.countP (fun e => edgeCross e.1 e.2 p)) % 2 == 1

/-- Modelled from the spec: shapely `Polygon.centroid` of a candidate space.
Every candidate ring built by the engine is a parallelogram (a rectangle for
the non-angled strategies), whose area centroid is the average of its four
distinct vertices. -/
def centroid4 : SpaceCoords → Pt
  | a :: b :: c :: d :: _ => ⟨(a.x + b.x + c.x + d.x) / 4, (a.y + b.y + c.y + d.y) / 4⟩
  | _ => ⟨0, 0⟩

/-- Bounding box of a candidate ring (all rings checked against corner zones
are axis-aligned rectangles, for which the box is the rectangle itself). -/
def ringBounds : SpaceCoords → Bounds := polyBounds

/-- Modelled from the spec: shapely `intersects` for two axis-aligned
rectangles — closed-interval overlap in both axes (touching counts). -/
def rectIntersects (a b : Bounds) : Bool :=
  decide (a.minx ≤ b.maxx ∧ b.minx ≤ a.maxx ∧ a.miny ≤ b.maxy ∧ b.miny ≤ a.maxy)

/-- Modelled from the spec: shapely `contains` of a point by an axis-aligned
rectangle — strict interior membership. -/
def rectContainsPt (b : Bounds) (p : Pt) : Bool :=
  decide (b.minx < p.x ∧ p.x < b.maxx ∧ b.miny < p.y ∧ p.y < b.maxy)

/-- Append a ring to the accumulator when the acceptance test passed
(`parking_spaces.append(display_coords)` under its guard). -/
def appendIf (c : Bool) (acc : List SpaceCoords) (r : SpaceCoords) : List SpaceCoords :=
  if c then acc ++ [r] else acc

/-- Fueled embedding of a Python `while cond:` loop whose body may `break`.
`step` returns the next state together with the break flag; fuel exhaustion
yields `none`. -/
def fuelWhileM {σ : Type} (cond : σ → Bool) (step : σ → Option (σ × Bool)) :
    ℕ → σ → Option σ
  | 0, _ => none
  | n + 1, s =>
    if cond s then
      match step s with
      | none => none
      | some t => if t.2 then some t.1 else fuelWhileM cond step n t.1
    else some s


/-- Fixed metres-per-degree-of-latitude scale of the packing engine
(`lat_to_m = 110540`). -/
def latToM : ℚ := 110540

/-- Faithful port of `create_space_coords`.  `horizontal` selects the
row-based ring shapes, `dir` is the alternating facing direction (1 or -1),
and for the angled variants (`angled = true`) `sinA`/`cosA` are the rational
values of the floating-point `sin`/`cos` of the 45-degree angle. -/
def create_space_coords (x y wdeg ldeg : ℚ) (horizontal : Bool) (dir : ℤ)
    (sinA cosA : ℚ) (angled : Bool) : SpaceCoords :=
  if horizontal then
    if angled = false then
      if dir = 1 then
        [⟨x, y⟩, ⟨x + wdeg, y⟩, ⟨x + wdeg, y + ldeg⟩, ⟨x, y + ldeg⟩, ⟨x, y⟩]
      else
        [⟨x, y⟩, ⟨x + wdeg, y⟩, ⟨x + wdeg, y - ldeg⟩, ⟨x, y - ldeg⟩, ⟨x, y⟩]
    else
      if dir = 1 then
        [⟨x, y⟩, ⟨x + wdeg, y⟩, ⟨x + wdeg + ldeg * sinA, y + ldeg * cosA⟩,
         ⟨x + ldeg * sinA, y + ldeg * cosA⟩, ⟨x, y⟩]
      else
        [⟨x, y⟩, ⟨x + wdeg, y⟩, ⟨x + wdeg - ldeg * sinA, y - ldeg * cosA⟩,
         ⟨x - ldeg * sinA, y - ldeg * cosA⟩, ⟨x, y⟩]
  else
    if angled = false then
      if dir = 1 then
        [⟨x, y⟩, ⟨x + ldeg, y⟩, ⟨x + ldeg, y + wdeg⟩, ⟨x, y + wdeg⟩, ⟨x, y⟩]
      else
        [⟨x, y⟩, ⟨x - ldeg, y⟩, ⟨x - ldeg, y + wdeg⟩, ⟨x, y + wdeg⟩, ⟨x, y⟩]
    else
      if dir = 1 then
        [⟨x, y⟩, ⟨x + ldeg * cosA, y⟩, ⟨x + ldeg * cosA, y + wdeg + ldeg * sinA⟩,
         ⟨x, y + wdeg + ldeg * sinA⟩, ⟨x, y⟩]
      else
        [⟨x, y⟩, ⟨x - ldeg * cosA, y⟩, ⟨x - ldeg * cosA, y + wdeg - ldeg * sinA⟩,
         ⟨x, y + wdeg - ldeg * sinA⟩, ⟨x, y⟩]

/-- One iteration of the inner row-based while loop (lines 1727-1743 of the
source): build the candidate at `(x, y)`, append it when its centroid is
inside the polygon, advance `x` by one space width, then report whether the
early-stop cap has been reached. -/
def rowInnerStep (poly : List Pt) (wdeg ldeg y : ℚ) (dir : ℤ) (angled : Bool)
    (sinA cosA : ℚ) (target : ℕ) (t : ℚ × List SpaceCoords) :
    (ℚ × List SpaceCoords) × Bool :=
  let ring := create_space_coords t.1 y wdeg ldeg true dir sinA cosA angled
  let acc := appendIf (insidePoly poly (centroid4 ring)) t.2 ring
  ((t.1 + wdeg, acc), decide (target ≤ acc.length))

/-- One iteration of the outer row loop (lines 1723-1747): run the inner scan
across the row, then advance `y` by the facing-dependent increment (space
length — scaled by `cosA` for the angled layout — plus one aisle width for
even rows, the aisle width alone for odd rows). -/
def rowOuterStep (poly : List Pt) (wdeg ldeg adeg maxx minx : ℚ) (angled : Bool)
    (sinA cosA : ℚ) (target fuel : ℕ) (s : ℚ × ℕ × List SpaceCoords) :
    Option ((ℚ × ℕ × List SpaceCoords) × Bool) :=
  match fuelWhileM (fun t => decide (t.1 < maxx))
      (fun t => some (rowInnerStep poly wdeg ldeg s.1
        (if s.2.1 % 2 = 0 then 1 else -1) angled sinA cosA target t))
      fuel (minx, s.2.2) with
  | none => none
  | some u =>
    some ((s.1 + (if (if s.2.1 % 2 = 0 then (1 : ℤ) else -1) = 1
        then (if angled then ldeg * cosA else ldeg) else 0) + adeg,
      s.2.1 + 1, u.2), false)

/-- The row-based scan-line layout (lines 1719-1747; with `angled = true`,
lines 1784-1812): horizontal row bands from the bounding-box bottom upward,
each scanned left to right. -/
def rowScan (angled : Bool) (sinA cosA : ℚ) (fuel : ℕ) (poly : List Pt)
    (spaceW spaceL aisleW lonToM : ℚ) (target : ℕ) (acc0 : List SpaceCoords) :
    Option (List SpaceCoords) :=
  (fuelWhileM (fun s => decide (s.1 < (polyBounds poly).maxy))
    (rowOuterStep poly (spaceW / lonToM) (spaceL / latToM) (aisleW / latToM)
      (polyBounds poly).maxx (polyBounds poly).minx angled sinA cosA target fuel)
    fuel ((polyBounds poly).miny, 0, acc0)).map (fun s => s.2.2)

/-- One iteration of the inner column-based while loop (lines 1758-1774):
the vertical counterpart of `rowInnerStep`; `y` advances by one space width
converted with the longitude factor, exactly as in the source. -/
def colInnerStep (poly : List Pt) (wdeg ldeg x : ℚ) (dir : ℤ) (angled : Bool)
    (sinA cosA : ℚ) (target : ℕ) (t : ℚ × List SpaceCoords) :
    (ℚ × List SpaceCoords) × Bool :=
  let ring := create_space_coords x t.1 wdeg ldeg false dir sinA cosA angled
  let acc := appendIf (insidePoly poly (centroid4 ring)) t.2 ring
  ((t.1 + wdeg, acc), decide (target ≤ acc.length))

/-- One iteration of the outer column loop (lines 1754-1778). -/
def colOuterStep (poly : List Pt) (wdeg ldeg adegLon maxy miny : ℚ) (angled : Bool)
    (sinA cosA : ℚ) (target fuel : ℕ) (s : ℚ × ℕ × List SpaceCoords) :
    Option ((ℚ × ℕ × List SpaceCoords) × Bool) :=
  match fuelWhileM (fun t => decide (t.1 < maxy))
      (fun t => some (colInnerStep poly wdeg ldeg s.1
        (if s.2.1 % 2 = 0 then 1 else -1) angled sinA cosA target t))
      fuel (miny, s.2.2) with
  | none => none
  | some u =>
    some ((s.1 + (if (if s.2.1 % 2 = 0 then (1 : ℤ) else -1) = 1
        then (if angled then ldeg * cosA else ldeg) else 0) + adegLon,
      s.2.1 + 1, u.2), false)

/-- The column-based scan-line layout (lines 1750-1778; angled variant at
lines 1815-1843). -/
def colScan (angled : Bool) (sinA cosA : ℚ) (fuel : ℕ) (poly : List Pt)
    (spaceW spaceL aisleW lonToM : ℚ) (target : ℕ) (acc0 : List SpaceCoords) :
    Option (List SpaceCoords) :=
  (fuelWhileM (fun s => decide (s.1 < (polyBounds poly).maxx))
    (colOuterStep poly (spaceW / lonToM) (spaceL / latToM) (aisleW / lonToM)
      (polyBounds poly).maxy (polyBounds poly).miny angled sinA cosA target fuel)
    fuel ((polyBounds poly).minx, 0, acc0)).map (fun s => s.2.2)

/-- One iteration of the first parallel-parking while loop (lines 1849-1883):
one candidate along the bottom bounding-box edge and one along the top, each
accepted on the centroid test, then `x` advances by one space length. -/
def parStep1 (poly : List Pt) (wdeg ldeg miny maxy : ℚ) (target : ℕ)
    (t : ℚ × List SpaceCoords) : (ℚ × List SpaceCoords) × Bool :=
  let r1 : SpaceCoords :=
    [⟨t.1, miny⟩, ⟨t.1 + ldeg, miny⟩, ⟨t.1 + ldeg, miny + wdeg⟩,
     ⟨t.1, miny + wdeg⟩, ⟨t.1, miny⟩]
  let a1 := appendIf (insidePoly poly (centroid4 r1)) t.2 r1
  let r2 : SpaceCoords :=
    [⟨t.1, maxy - wdeg⟩, ⟨t.1 + ldeg, maxy - wdeg⟩, ⟨t.1 + ldeg, maxy⟩,
     ⟨t.1, maxy⟩, ⟨t.1, maxy - wdeg⟩]
  let a2 := appendIf (insidePoly poly (centroid4 r2)) a1 r2
  ((t.1 + ldeg, a2), decide (target ≤ a2.length))

/-- One iteration of the second parallel-parking while loop (lines 1886-1922):
one candidate along the left bounding-box edge and one along the right, then
`y` advances by one space length. -/
def parStep2 (poly : List Pt) (wdeg ldeg minx maxx : ℚ) (target : ℕ)
    (t : ℚ × List SpaceCoords) : (ℚ × List SpaceCoords) × Bool :=
  let r1 : SpaceCoords :=
    [⟨minx, t.1⟩, ⟨minx + wdeg, t.1⟩, ⟨minx + wdeg, t.1 + ldeg⟩,
     ⟨minx, t.1 + ldeg⟩, ⟨minx, t.1⟩]
  let a1 := appendIf (insidePoly poly (centroid4 r1)) t.2 r1
  let r2 : SpaceCoords :=
    [⟨maxx - wdeg, t.1⟩, ⟨maxx, t.1⟩, ⟨maxx, t.1 + ldeg⟩,
     ⟨maxx - wdeg, t.1 + ldeg⟩, ⟨maxx - wdeg, t.1⟩]
  let a2 := appendIf (insidePoly poly (centroid4 r2)) a1 r2
  ((t.1 + ldeg, a2), decide (target ≤ a2.length))

/-- The parallel-parking layout (lines 1845-1922): spaces only along the four
bounding-box edges, long axis along the edge. -/
def parallelSpaces (fuel : ℕ) (poly : List Pt) (spaceW spaceL lonToM : ℚ)
    (target : ℕ) : Option (List SpaceCoords) :=
  match fuelWhileM (fun s => decide (s.1 < (polyBounds poly).maxx))
      (fun t => some (parStep1 poly (spaceW / lonToM) (spaceL / latToM)
        (polyBounds poly).miny (polyBounds poly).maxy target t))
      fuel ((polyBounds poly).minx, []) with
  | none => none
  | some u =>
    (fuelWhileM (fun s => decide (s.1 < (polyBounds poly).maxy))
      (fun t => some (parStep2 poly (spaceW / lonToM) (spaceL / latToM)
        (polyBounds poly).minx (polyBounds poly).maxx target t))
      fuel ((polyBounds poly).miny, u.2)).map (fun s => s.2)

/-- The four corner exclusion zones of the perimeter+center strategy
(lines 1305-1334), sized by `corner_island_size` and anchored at the
bounding-box corners; defined unconditionally, independent of the visual
corner-islands checkbox. -/
def cornerZones (b : Bounds) (cszLon cszLat : ℚ) : List Bounds :=
  [⟨b.minx, b.maxy - cszLat, b.minx + cszLon, b.maxy⟩,
   ⟨b.maxx - cszLon, b.maxy - cszLat, b.maxx, b.maxy⟩,
   ⟨b.minx, b.miny, b.minx + cszLon, b.miny + cszLat⟩,
   ⟨b.maxx - cszLon, b.miny, b.maxx, b.miny + cszLat⟩]

/-- Faithful port of `conflicts_with_corners` (lines 1337-1342): a candidate
conflicts when its polygon intersects a corner zone or a zone contains its
centroid. -/
def conflicts_with_corners (zones : List Bounds) (r : SpaceCoords) : Bool :=
  zones.any (fun z => rectIntersects (ringBounds r) z || rectContainsPt z (centroid4 r))

/-- One iteration of a perimeter-strip or center-row while loop of the
perimeter+center strategy: `mk` builds the candidate ring at the scan
coordinate, acceptance requires the centroid inside the polygon and no corner
conflict, and the coordinate advances by `inc`. -/
def stripStep (poly : List Pt) (zones : List Bounds) (mk : ℚ → SpaceCoords)
    (inc : ℚ) (target : ℕ) (t : ℚ × List SpaceCoords) :
    (ℚ × List SpaceCoords) × Bool :=
  let r := mk t.1
  let acc := appendIf (insidePoly poly (centroid4 r) &&
    !conflicts_with_corners zones r) t.2 r
  ((t.1 + inc, acc), decide (target ≤ acc.length))

/-- Ring of a top-perimeter candidate at scan position `x` (lines 1376-1382). -/
def mkTopStrip (wdeg ldeg py : ℚ) (x : ℚ) : SpaceCoords :=
  [⟨x, py + ldeg⟩, ⟨x + wdeg, py + ldeg⟩, ⟨x + wdeg, py⟩, ⟨x, py⟩, ⟨x, py + ldeg⟩]

/-- Ring of a bottom-perimeter candidate at scan position `x` (lines 1400-1406). -/
def mkBottomStrip (wdeg ldeg py : ℚ) (x : ℚ) : SpaceCoords :=
  [⟨x, py⟩, ⟨x + wdeg, py⟩, ⟨x + wdeg, py + ldeg⟩, ⟨x, py + ldeg⟩, ⟨x, py⟩]

/-- Ring of a left- or right-perimeter candidate at scan position `y`
(lines 1422-1428 and 1444-1450; the two sides share one shape with their own
`px`). -/
def mkSideStrip (wdeg ldeg px : ℚ) (y : ℚ) : SpaceCoords :=
  [⟨px, y⟩, ⟨px + ldeg, y⟩, ⟨px + ldeg, y + wdeg⟩, ⟨px, y + wdeg⟩, ⟨px, y⟩]

/-- Ring of a center-row candidate above the row aisle (lines 1496-1502). -/
def mkCenterTop (wdeg ldeg adeg yc : ℚ) (x : ℚ) : SpaceCoords :=
  [⟨x, yc + adeg / 2 + ldeg⟩, ⟨x + wdeg, yc + adeg / 2 + ldeg⟩,
   ⟨x + wdeg, yc + adeg / 2⟩, ⟨x, yc + adeg / 2⟩, ⟨x, yc + adeg / 2 + ldeg⟩]

/-- Ring of a center-row candidate below the row aisle (lines 1518-1524). -/
def mkCenterBottom (wdeg ldeg adeg yc : ℚ) (x : ℚ) : SpaceCoords :=
  [⟨x, yc - adeg / 2⟩, ⟨x + wdeg, yc - adeg / 2⟩,
   ⟨x + wdeg, yc - adeg / 2 - ldeg⟩, ⟨x, yc - adeg / 2 - ldeg⟩, ⟨x, yc - adeg / 2⟩]

/-- The four sequential perimeter strips of the perimeter+center strategy
(lines 1371-1459): top, bottom, left, right. -/
def perimeterStrips (fuel : ℕ) (poly : List Pt)
    (spaceW spaceL aisleW lonToM cornerSize : ℚ) (target : ℕ) :
    Option (List SpaceCoords) :=
  match fuelWhileM (fun s => decide (s.1 < (polyBounds poly).maxx))
      (fun t => some (stripStep poly
        (cornerZones (polyBounds poly) (cornerSize / lonToM) (cornerSize / latToM))
        (mkTopStrip (spaceW / lonToM) (spaceL / latToM)
          ((polyBounds poly).maxy - spaceL / latToM - aisleW / latToM))
        (spaceW / lonToM) target t))
      fuel ((polyBounds poly).minx, []) with
  | none => none
  | some u1 =>
    match fuelWhileM (fun s => decide (s.1 < (polyBounds poly).maxx))
        (fun t => some (stripStep poly
          (cornerZones (polyBounds poly) (cornerSize / lonToM) (cornerSize / latToM))
          (mkBottomStrip (spaceW / lonToM) (spaceL / latToM)
            ((polyBounds poly).miny + aisleW / latToM))
          (spaceW / lonToM) target t))
        fuel ((polyBounds poly).minx, u1.2) with
    | none => none
    | some u2 =>
      match fuelWhileM (fun s => decide (s.1 < (polyBounds poly).maxy))
          (fun t => some (stripStep poly
            (cornerZones (polyBounds poly) (cornerSize / lonToM) (cornerSize / latToM))
            (mkSideStrip (spaceW / lonToM) (spaceL / latToM)
              ((polyBounds poly).minx + aisleW / lonToM))
            (spaceW / lonToM) target t))
          fuel ((polyBounds poly).miny, u2.2) with
      | none => none
      | some u3 =>
        (fuelWhileM (fun s => decide (s.1 < (polyBounds poly).maxy))
          (fun t => some (stripStep poly
            (cornerZones (polyBounds poly) (cornerSize / lonToM) (cornerSize / latToM))
            (mkSideStrip (spaceW / lonToM) (spaceL / latToM)
              ((polyBounds poly).maxx - spaceL / latToM - aisleW / lonToM))
            (spaceW / lonToM) target t))
          fuel ((polyBounds poly).miny, u3.2)).map (fun s => s.2)

/-- Center-bounds rectangle of the perimeter+center strategy (lines
1359-1369): the outer bounds inset by one space length plus two aisle widths
on every side, using the source's mixed latitude/longitude conversions. -/
def centerBoundsOf (b : Bounds) (ldeg adeg adegLon : ℚ) : Bounds :=
  ⟨b.minx + (ldeg + adegLon * 2), b.miny + (ldeg + adeg * 2),
   b.maxx - (ldeg + adegLon * 2), b.maxy - (ldeg + adeg * 2)⟩

/-- Height needed by one double-loaded center row: two space lengths plus the
shared central aisle (line 1467). -/
def rowHeightOf (ldeg adeg : ℚ) : ℚ := 2 * ldeg + adeg

/-- Total height needed by all requested center rows including the aisles
between them (line 1470). -/
def totalCenterNeeded (ldeg adeg : ℚ) (rows : ℕ) : ℚ :=
  (rows : ℚ) * rowHeightOf ldeg adeg + ((rows : ℚ) - 1) * adeg

/-- The center-rows sufficiency test of line 1472: the center height must
exceed the total needed height and the center width must exceed one space
width, otherwise no center rows are placed. -/
def centerFitsB (b : Bounds) (wdeg ldeg adeg adegLon : ℚ) (rows : ℕ) : Bool :=
  decide (totalCenterNeeded ldeg adeg rows <
      (centerBoundsOf b ldeg adeg adegLon).maxy - (centerBoundsOf b ldeg adeg adegLon).miny ∧
    wdeg < (centerBoundsOf b ldeg adeg adegLon).maxx - (centerBoundsOf b ldeg adeg adegLon).minx)

/-- Vertical center positions of the requested rows (lines 1473-1487),
evenly distributed around the vertical midpoint of the center bounds. -/
def centerRowPositions (cb : Bounds) (ldeg adeg : ℚ) (rows : ℕ) : List ℚ :=
  if rows = 1 then [(cb.miny + cb.maxy) / 2]
  else
    (List.range rows).map (fun i =>
      ((cb.miny + cb.maxy) / 2 - ((rows : ℚ) - 1) * (rowHeightOf ldeg adeg + adeg) / 2) +
        (i : ℚ) * (rowHeightOf ldeg adeg + adeg))

/-- The per-row placement loop of the center section (lines 1490-1533): for
each row center, one scan above the row aisle and one below. -/
def centerRowLoop (fuel : ℕ) (poly : List Pt) (zones : List Bounds)
    (wdeg ldeg adeg cl cr : ℚ) (target : ℕ) :
    List ℚ → List SpaceCoords → Option (List SpaceCoords)
  | [], acc => some acc
  | yc :: rest, acc =>
    match fuelWhileM (fun s => decide (s.1 < cr))
        (fun t => some (stripStep poly zones (mkCenterTop wdeg ldeg adeg yc) wdeg target t))
        fuel (cl, acc) with
    | none => none
    | some u1 =>
      match fuelWhileM (fun s => decide (s.1 < cr))
          (fun t => some (stripStep poly zones (mkCenterBottom wdeg ldeg adeg yc) wdeg target t))
          fuel (cl, u1.2) with
      | none => none
      | some u2 => centerRowLoop fuel poly zones wdeg ldeg adeg cl cr target rest u2.2

/-- The perimeter+center strategy (lines 1292-1540): four perimeter strips,
then — only when the center bounds are large enough — the requested
double-loaded center rows.  The Boolean result is true exactly when the
center section was skipped and the insufficient-space warning was logged;
`includeIslands` is the display-only corner-islands checkbox, which does not
influence placement. -/
def perimeterCenterSpaces (fuel : ℕ) (includeIslands : Bool) (poly : List Pt)
    (spaceW spaceL aisleW lonToM cornerSize : ℚ) (centerRows target : ℕ) :
    Option (List SpaceCoords × Bool) :=
  match perimeterStrips fuel poly spaceW spaceL aisleW lonToM cornerSize target with
  | none => none
  | some acc =>
    if centerFitsB (polyBounds poly) (spaceW / lonToM) (spaceL / latToM)
        (aisleW / latToM) (aisleW / lonToM) centerRows then
      (centerRowLoop fuel poly
        (cornerZones (polyBounds poly) (cornerSize / lonToM) (cornerSize / latToM))
        (spaceW / lonToM) (spaceL / latToM) (aisleW / latToM)
        (centerBoundsOf (polyBounds poly) (spaceL / latToM) (aisleW / latToM)
          (aisleW / lonToM)).minx
        (centerBoundsOf (polyBounds poly) (spaceL / latToM) (aisleW / latToM)
          (aisleW / lonToM)).maxx
        target
        (centerRowPositions
          (centerBoundsOf (polyBounds poly) (spaceL / latToM) (aisleW / latToM)
            (aisleW / lonToM))
          (spaceL / latToM) (aisleW / latToM) centerRows)
        acc).map (fun a => (a, false))
    else some (acc, true)

/-- The parking-type selector of the sidebar. -/
inductive ParkingType where
  | perpendicular
  | angled
  | parallel
  | compact
deriving DecidableEq, Repr

/-- The layout-orientation selector of the sidebar. -/
inductive LayoutOrient where
  | autoBestFit
  | rowBased
  | columnBased
  | perimeterCenter
deriving DecidableEq, Repr

/-- Bounding-box aspect ratio (lines 1115-1117), with the division-by-zero
guard returning 1. -/
def aspectOf (b : Bounds) : ℚ :=
  if 0 < b.maxy - b.miny then (b.maxx - b.minx) / (b.maxy - b.miny) else 1

/-- Resolution of the orientation selection into the
(use_rows, use_columns, use_perimeter_center) flags (lines 1229-1283). -/
def resolveFlags (o : LayoutOrient) (aspect : ℚ) : Bool × Bool × Bool :=
  match o with
  | .autoBestFit =>
    if 6 / 5 < aspect then (true, false, false)
    else if aspect < 4 / 5 then (false, true, false)
    else (true, false, false)
  | .rowBased => (true, false, false)
  | .columnBased => (false, true, false)
  | .perimeterCenter => (false, false, true)

/-- The full input of one packing-engine invocation: polygon, dimension set,
strategy selectors, the conversion factor `lonToM` (the source's
`111320 * cos(radians(center_lat))`, kept as an input because the cosine is
evaluated in floating point), the rational values `sin45`/`cos45` of the
floating-point sine and cosine of 45 degrees used by the angled strategy, and
the early-stop cap `target` (999999 in optimized mode). -/
structure PackArgs where
  fuel : ℕ
  ptype : ParkingType
  orient : LayoutOrient
  poly : List Pt
  spaceW : ℚ
  spaceL : ℚ
  aisleW : ℚ
  lonToM : ℚ
  cornerSize : ℚ
  centerRows : ℕ
  includeIslands : Bool
  sin45 : ℚ
  cos45 : ℚ
  target : ℕ
deriving DecidableEq, Repr

/-- The packing-engine dispatcher (lines 1229-1922): resolve the orientation
flags, then run exactly one strategy.  The Boolean in the result is the
perimeter+center center-skipped warning flag (false for all other
strategies). -/
def packSpaces (a : PackArgs) : Option (List SpaceCoords × Bool) :=
  if (resolveFlags a.orient (aspectOf (polyBounds a.poly))).2.2 then
    perimeterCenterSpaces a.fuel a.includeIslands a.poly a.spaceW a.spaceL
      a.aisleW a.lonToM a.cornerSize a.centerRows a.target
  else
    match a.ptype with
    | .parallel =>
      (parallelSpaces a.fuel a.poly a.spaceW a.spaceL a.lonToM a.target).map
        (fun s => (s, false))
    | .angled =>
      match (if (resolveFlags a.orient (aspectOf (polyBounds a.poly))).1 then
          rowScan true a.sin45 a.cos45 a.fuel a.poly a.spaceW a.spaceL a.aisleW
            a.lonToM a.target []
        else some []) with
      | none => none
      | some acc1 =>
        (if (resolveFlags a.orient (aspectOf (polyBounds a.poly))).2.1 then
          colScan true a.sin45 a.cos45 a.fuel a.poly a.spaceW a.spaceL a.aisleW
            a.lonToM a.target acc1
        else some acc1).map (fun s => (s, false))
    | _ =>
      match (if (resolveFlags a.orient (aspectOf (polyBounds a.poly))).1 then
          rowScan false 0 0 a.fuel a.poly a.spaceW a.spaceL a.aisleW
            a.lonToM a.target []
        else some []) with
      | none => none
      | some acc1 =>
        (if (resolveFlags a.orient (aspectOf (polyBounds a.poly))).2.1 then
          colScan false 0 0 a.fuel a.poly a.spaceW a.spaceL a.aisleW
            a.lonToM a.target acc1
        else some acc1).map (fun s => (s, false))

/-- Python `int()` truncation toward zero applied to a float quotient. -/
def pyInt (q : ℚ) : ℤ := if 0 ≤ q then ⌊q⌋ else -⌊-q⌋

/-- Python float division: raises `ZeroDivisionError` on a zero divisor,
modelled as `none`. -/
def pyDivQ (a b : ℚ) : Option ℚ := if b = 0 then none else some (a / b)

/-- Shoelace cross-term sum over the consecutive vertex pairs of a closed
ring. -/
def shoelace (vs : List Pt) : ℚ :=
  ((vs.zip vs.tail).map (fun e => e.1.x * e.2.y - e.2.x * e.1.y)).sum

/-- Planar area of a closed ring: half the absolute shoelace sum (shapely
`Polygon.area`). -/
def ringArea (vs : List Pt) : ℚ := |shoelace vs| / 2

/-- The estimator's polygon area in square metres (lines 1998-2005): vertices
scaled by the fixed 82000 m/°lon and 111000 m/°lat constants, then the planar
area. -/
def estimatorAreaM2 (coords : List Pt) : ℚ :=
  ringArea (coords.map (fun p => ⟨p.x * 82000, p.y * 111000⟩))

/-- The implied efficiency of line 623: the stall area divided by the area
per space, falling back to the fixed default 0.85 when `area_per_space` is
not positive. -/
def impliedEfficiency (spaceArea areaPerSpace : ℚ) : ℚ :=
  if 0 < areaPerSpace then spaceArea / areaPerSpace else 17 / 20

/-- The two capacity-estimation methods of the sidebar. -/
inductive CalcMethod where
  | itePerSpace
  | efficiencyFactor
deriving DecidableEq, Repr

/-- The per-level capacity estimate (lines 2013-2018): `int(area/aps)` for
the ITE method, `int(area*efficiency/space_area)` for the efficiency-factor
method.  The divisions are unguarded in the source, so a zero divisor is a
`ZeroDivisionError`, modelled as `none`. -/
def estimatedSpacesPerLevel (m : CalcMethod) (areaM2 efficiency spaceArea areaPerSpace : ℚ) :
    Option ℤ :=
  match m with
  | .itePerSpace => (pyDivQ areaM2 areaPerSpace).map pyInt
  | .efficiencyFactor => (pyDivQ (areaM2 * efficiency) spaceArea).map pyInt

/-- The total estimate of line 2024: per-level estimate times the level count
(`num_levels = 1` for surface lots). -/
def estimatedSpacesTotal (perLevel : ℤ) (numLevels : ℕ) : ℤ :=
  perLevel * (numLevels : ℤ)

/-- Elevation assigned to a 0-indexed level (lines 790-797): `-H*(i+1)` for
underground structures, `H*i` aboveground. -/
def levelElev (underground : Bool) (floorH : ℚ) (level : ℕ) : ℚ :=
  if underground then -floorH * ((level : ℚ) + 1) else floorH * (level : ℚ)

/-- Horizontal longitude offset of a level in the exploded 3D views
(lines 838-845): `(level - num_levels/2) * max_range * 1.5`, zero in stacked
view. -/
def explOffset (exploded : Bool) (numLevels : ℕ) (maxRange : ℚ) (level : ℕ) : ℚ :=
  if exploded then ((level : ℚ) - (numLevels : ℚ) / 2) * maxRange * (3 / 2) else 0

/-- One extruded 3D parking space (the fields of `space_3d` relevant to the
claims: ring, elevation and 1-based level number). -/
structure Space3D where
  coords : SpaceCoords
  elevation : ℚ
  levelNumber : ℕ
deriving DecidableEq, Repr

/-- The multi-level extrusion loop (lines 790-864): every level contains a
copy of each packed space, horizontally offset in exploded view, at the
level's elevation. -/
def allSpaces3D (spaces : List SpaceCoords) (numLevels : ℕ) (underground : Bool)
    (floorH : ℚ) (exploded : Bool) (maxRange : ℚ) : List Space3D :=
  (List.range numLevels).flatMap (fun level =>
    spaces.map (fun s =>
      ⟨s.map (fun p => ⟨p.x + explOffset exploded numLevels maxRange level, p.y⟩),
       levelElev underground floorH level, level + 1⟩))

/-- The reported total of line 964: spaces drawn on one level times the level
count. -/
def total_spaces_all_levels (actualSpacesDrawn numLevels : ℕ) : ℕ :=
  actualSpacesDrawn * numLevels

/-- A 10 m by 12 m rectangular lot at the equator, written in degrees with
the engine's own conversion factors. -/
def C1poly : List Pt :=
  [⟨0, 0⟩, ⟨10/111320, 0⟩, ⟨10/111320, 12/110540⟩, ⟨0, 12/110540⟩, ⟨0, 0⟩]

/-- Conservative-mode packing call on `C1poly`: row-based perpendicular
spaces of 2.5 m by 5 m with a 6 m aisle and a target cap of one space. -/
def C1args : PackArgs :=
  ⟨64, .perpendicular, .rowBased, C1poly, 5/2, 5, 6, 111320, 0, 1, false, 0, 0, 1⟩

/-- A 2 m by 3 m rectangular lot at the equator — smaller than a single
2.5 m by 5 m parking space. -/
def C2poly : List Pt :=
  [⟨0, 0⟩, ⟨2/111320, 0⟩, ⟨2/111320, 3/110540⟩, ⟨0, 3/110540⟩, ⟨0, 0⟩]

/-- Optimized-mode (no cap) row-based packing call on `C2poly`. -/
def C2args : PackArgs :=
  ⟨64, .perpendicular, .rowBased, C2poly, 5/2, 5, 6, 111320, 0, 1, false, 0, 0, 999999⟩

/-- A 4 m by 4 m rectangular lot at the equator, used as a concrete
perimeter+center run. -/
def C4poly : List Pt :=
  [⟨0, 0⟩, ⟨4/111320, 0⟩, ⟨4/111320, 4/110540⟩, ⟨0, 4/110540⟩, ⟨0, 0⟩]

/-- A 3 m by 3 m rectangular lot at the equator — far too small for any
center row. -/
def C6poly : List Pt :=
  [⟨0, 0⟩, ⟨3/111320, 0⟩, ⟨3/111320, 3/110540⟩, ⟨0, 3/110540⟩, ⟨0, 0⟩]

theorem appendIf_length_le (c : Bool) (acc : List SpaceCoords) (r : SpaceCoords) :
    (appendIf c acc r).length ≤ acc.length + 1 := by
  cases c <;> simp [appendIf]

theorem length_le_appendIf_length (c : Bool) (acc : List SpaceCoords) (r : SpaceCoords) :
    acc.length ≤ (appendIf c acc r).length := by
  cases c <;> simp [appendIf]

theorem mem_appendIf {c : Bool} {acc : List SpaceCoords} {r s : SpaceCoords}
    (h : s ∈ appendIf c acc r) : s ∈ acc ∨ (s = r ∧ c = true) := by
  cases c <;> simp [appendIf] at h
  · exact Or.inl h
  · rcases h with h | h
    · exact Or.inl h
    · exact Or.inr ⟨h, rfl⟩


theorem fuelWhileM_inv {σ : Type} (cond : σ → Bool) (step : σ → Option (σ × Bool))
    (P : σ → Prop) (hstep : ∀ s t, step s = some t → P s → P t.1) :
    ∀ n s r, fuelWhileM cond step n s = some r → P s → P r := by
  intro n
  induction n with
  | zero => intro s r h; simp [fuelWhileM] at h
  | succ n ih =>
    intro s r h hP
    rw [fuelWhileM] at h
    by_cases hc : cond s
    · rw [if_pos hc] at h
      cases hst : step s with
      | none => simp only [hst] at h; exact absurd h (by simp)
      | some t =>
        simp only [hst] at h
        by_cases hb : t.2
        · rw [if_pos hb] at h
          cases h
          exact hstep s t hst hP
        · rw [if_neg hb] at h
          exact ih t.1 r h (hstep s t hst hP)
    · rw [if_neg hc] at h
      cases h
      exact hP

theorem fuelWhileM_growth {σ : Type} (cond : σ → Bool) (step : σ → Option (σ × Bool))
    (f : σ → ℕ) (c : ℕ) (hstep : ∀ s t, step s = some t → f t.1 ≤ f s + c) :
    ∀ n s r, fuelWhileM cond step n s = some r → f r ≤ f s + c * n := by
  intro n
  induction n with
  | zero => intro s r h; simp [fuelWhileM] at h
  | succ n ih =>
    intro s r h
    rw [fuelWhileM] at h
    by_cases hc : cond s
    · rw [if_pos hc] at h
      cases hst : step s with
      | none => simp only [hst] at h; exact absurd h (by simp)
      | some t =>
        simp only [hst] at h
        by_cases hb : t.2
        · rw [if_pos hb] at h
          cases h
          have := hstep s t hst
          calc f t.1 ≤ f s + c := this
            _ ≤ f s + c * (n + 1) := by nlinarith
        · rw [if_neg hb] at h
          have h1 := ih t.1 r h
          have h2 := hstep s t hst
          calc f r ≤ f t.1 + c * n := h1
            _ ≤ f s + c + c * n := by omega
            _ = f s + c * (n + 1) := by ring
    · rw [if_neg hc] at h
      cases h
      omega

theorem fuelWhileM_cap {σ : Type} (cond : σ → Bool) (step : σ → Option (σ × Bool))
    (f : σ → ℕ) (T : ℕ)
    (h1 : ∀ s t, step s = some t → f t.1 ≤ f s + 1)
    (h2 : ∀ s u, step s = some (u, false) → f u ≤ T) :
    ∀ n s r, fuelWhileM cond step n s = some r → f r ≤ max (f s + 1) (T + 1) := by
  intro n
  induction n with
  | zero => intro s r h; simp [fuelWhileM] at h
  | succ n ih =>
    intro s r h
    rw [fuelWhileM] at h
    by_cases hc : cond s
    · rw [if_pos hc] at h
      cases hst : step s with
      | none => simp only [hst] at h; exact absurd h (by simp)
      | some t =>
        simp only [hst] at h
        by_cases hb : t.2
        · rw [if_pos hb] at h
          cases h
          have := h1 s t hst
          omega
        · rw [if_neg hb] at h
          have hbf : t.2 = false := by simpa using hb
          have ht2 : t = (t.1, false) := by
            cases t; simp_all
          have hT : f t.1 ≤ T := h2 s t.1 (ht2 ▸ hst)
          have := ih t.1 r h
          omega
    · rw [if_neg hc] at h
      cases h
      omega

theorem fuelWhileM_rows {σ : Type} (cond : σ → Bool) (step : σ → Option (σ × Bool))
    (f : σ → ℕ) (T : ℕ)
    (h : ∀ s t, step s = some t → f t.1 ≤ max (f s + 1) T) :
    ∀ n s r, fuelWhileM cond step n s = some r → f r ≤ max T (f s) + n := by
  intro n
  induction n with
  | zero => intro s r hr; simp [fuelWhileM] at hr
  | succ n ih =>
    intro s r hr
    rw [fuelWhileM] at hr
    by_cases hc : cond s
    · rw [if_pos hc] at hr
      cases hst : step s with
      | none => simp only [hst] at hr; exact absurd hr (by simp)
      | some t =>
        simp only [hst] at hr
        by_cases hb : t.2
        · rw [if_pos hb] at hr
          cases hr
          have := h s t hst
          omega
        · rw [if_neg hb] at hr
          have h1 := ih t.1 r hr
          have h2 := h s t hst
          omega
    · rw [if_neg hc] at hr
      cases hr
      omega

theorem fuelWhileM_total {σ : Type} (cond : σ → Bool) (step : σ → Option (σ × Bool))
    (μ : σ → ℕ) (h : ∀ s, cond s = true → ∃ t, step s = some t ∧ μ t.1 < μ s) :
    ∀ n s, μ s < n → (fuelWhileM cond step n s).isSome = true := by
  intro n
  induction n with
  | zero => intro s hs; omega
  | succ n ih =>
    intro s hs
    rw [fuelWhileM]
    by_cases hc : cond s
    · obtain ⟨t, ht, hμ⟩ := h s hc
      rw [if_pos hc]
      simp only [ht]
      by_cases hb : t.2
      · rw [if_pos hb]; rfl
      · rw [if_neg hb]
        exact ih t.1 (by omega)
    · rw [if_neg hc]; rfl

theorem ceil_sub_one_lt {t : ℚ} (ht : 0 < t) : ⌈t - 1⌉₊ < ⌈t⌉₊ := by
  have h1 : 0 < ⌈t⌉₊ := Nat.ceil_pos.mpr ht
  have h2 : ⌈t - 1⌉₊ ≤ ⌈t⌉₊ - 1 := by
    apply Nat.ceil_le.mpr
    have hle : t ≤ (⌈t⌉₊ : ℚ) := Nat.le_ceil t
    have hcast : ((⌈t⌉₊ - 1 : ℕ) : ℚ) = (⌈t⌉₊ : ℚ) - 1 := by
      push_cast [Nat.cast_sub (by omega : 1 ≤ ⌈t⌉₊)]
      ring
    rw [hcast]
    linarith
  omega

theorem ceil_step_lt {a d i : ℚ} (hd : 0 < d) (ha : 0 < a) (hi : d ≤ i) :
    ⌈(a - i) / d⌉₊ < ⌈a / d⌉₊ := by
  have h1 : (a - i) / d ≤ a / d - 1 := by
    have hq : a / d - 1 = (a - d) / d := by
      field_simp
    rw [hq]
    exact (div_le_div_iff_of_pos_right hd).mpr (by linarith)
  have h2 : ⌈(a - i) / d⌉₊ ≤ ⌈a / d - 1⌉₊ := Nat.ceil_le_ceil h1
  have h3 : ⌈a / d - 1⌉₊ < ⌈a / d⌉₊ := ceil_sub_one_lt (div_pos ha hd)
  omega

theorem fuelWhileM_total_inc {β : Type} (lim d : ℚ) (hd : 0 < d)
    (step : (ℚ × β) → Option ((ℚ × β) × Bool))
    (hstep : ∀ t : ℚ × β, t.1 < lim → ∃ u, step t = some u ∧ t.1 + d ≤ u.1.1) :
    ∀ n t, ⌈(lim - t.1) / d⌉₊ < n →
      (fuelWhileM (fun s => decide (s.1 < lim)) step n t).isSome = true := by
  intro n t hn
  apply fuelWhileM_total _ _ (fun s => ⌈(lim - s.1) / d⌉₊) _ n t hn
  intro s hc
  have hlt : s.1 < lim := of_decide_eq_true hc
  obtain ⟨u, hu, hinc⟩ := hstep s hlt
  refine ⟨u, hu, ?_⟩
  have h1 : lim - u.1.1 ≤ (lim - s.1) - d := by linarith
  calc ⌈(lim - u.1.1) / d⌉₊
      ≤ ⌈((lim - s.1) - d) / d⌉₊ :=
        Nat.ceil_le_ceil ((div_le_div_iff_of_pos_right hd).mpr (by linarith))
    _ < ⌈(lim - s.1) / d⌉₊ := ceil_step_lt hd (by linarith) le_rfl

/-- Claim C3 counterexample: with `area_per_space = 0` the ITE per-level division
`int(area_m2 / area_per_space)` raises `ZeroDivisionError` (modelled `none`)
instead of falling back to a default ratio, and the efficiency-factor
division likewise raises when `space_area = 0` — the claimed defined fallback
does not exist at these division sites. -/
theorem estimator_zero_divisor_raises :
    estimatedSpacesPerLevel .itePerSpace 100 (17/20) (25/2) 0 = none ∧
    estimatedSpacesPerLevel .efficiencyFactor 100 (17/20) 0 (37/1) = none := by
  constructor <;> with_unfolding_all decide

/-- Claim C3 amended: the division-by-zero fallback exists only where the implied
efficiency is derived — `area_per_space = 0` makes `efficiency` fall back to
the fixed default 0.85 — and with that fallback the efficiency-factor
estimate is defined whenever the stall area is positive; the division sites
themselves remain unguarded. -/
theorem efficiency_fallback (areaM2 spaceArea areaPerSpace : ℚ)
    (h0 : areaPerSpace = 0) (hs : 0 < spaceArea) :
    impliedEfficiency spaceArea areaPerSpace = 17/20 ∧
    (estimatedSpacesPerLevel .efficiencyFactor areaM2
      (impliedEfficiency spaceArea areaPerSpace) spaceArea areaPerSpace).isSome = true := by
  subst h0
  constructor
  · simp [impliedEfficiency]
  · simp [estimatedSpacesPerLevel, pyDivQ, ne_of_gt hs]

theorem efficiency_fallback_witness :
    (0 : ℚ) = 0 ∧ (0 : ℚ) < 25/2 ∧
    (impliedEfficiency (25/2) 0 = 17/20 ∧
      (estimatedSpacesPerLevel .efficiencyFactor 100
        (impliedEfficiency (25/2) 0) (25/2) 0).isSome = true) :=
  ⟨rfl, by norm_num, efficiency_fallback 100 (25/2) 0 rfl (by norm_num)⟩

/-- Claim C5: for nonnegative area and efficiency and positive divisors, the ITE
per-level estimate is `floor(area_m2 / area_per_space)`, the
efficiency-factor per-level estimate is
`floor(area_m2 * efficiency / space_area)`, and the total is the per-level
estimate times the level count. -/
theorem estimator_formulas (areaM2 efficiency spaceArea areaPerSpace : ℚ)
    (perLevel : ℤ) (numLevels : ℕ)
    (h1 : 0 ≤ areaM2) (h2 : 0 < areaPerSpace) (h3 : 0 ≤ efficiency) (h4 : 0 < spaceArea) :
    estimatedSpacesPerLevel .itePerSpace areaM2 efficiency spaceArea areaPerSpace =
      some ⌊areaM2 / areaPerSpace⌋ ∧
    estimatedSpacesPerLevel .efficiencyFactor areaM2 efficiency spaceArea areaPerSpace =
      some ⌊areaM2 * efficiency / spaceArea⌋ ∧
    estimatedSpacesTotal perLevel numLevels = perLevel * (numLevels : ℤ) := by
  refine ⟨?_, ?_, rfl⟩
  · have hq : 0 ≤ areaM2 / areaPerSpace := div_nonneg h1 h2.le
    simp [estimatedSpacesPerLevel, pyDivQ, ne_of_gt h2, pyInt, hq]
  · have hq : 0 ≤ areaM2 * efficiency / spaceArea :=
      div_nonneg (mul_nonneg h1 h3) h4.le
    simp [estimatedSpacesPerLevel, pyDivQ, ne_of_gt h4, pyInt, hq]

theorem estimator_formulas_witness :
    (0 : ℚ) ≤ 100 ∧ (0 : ℚ) < 7 ∧ (0 : ℚ) ≤ 4/5 ∧ (0 : ℚ) < 25/2 ∧
    (estimatedSpacesPerLevel .itePerSpace 100 (4/5) (25/2) 7 = some ⌊(100 : ℚ) / 7⌋ ∧
      estimatedSpacesPerLevel .efficiencyFactor 100 (4/5) (25/2) 7 =
        some ⌊(100 : ℚ) * (4/5) / (25/2)⌋ ∧
      estimatedSpacesTotal 14 3 = 14 * (3 : ℤ)) :=
  ⟨by norm_num, by norm_num, by norm_num, by norm_num,
   estimator_formulas 100 (4/5) (25/2) 7 14 3 (by norm_num) (by norm_num)
     (by norm_num) (by norm_num)⟩

/-- Claim C6: when the center bounds fail the sufficiency test (height not greater
than the needed total, or width not greater than one space width), the
perimeter+center layout places no center-row spaces: it returns exactly the
perimeter-strip result, flagged with the insufficient-center warning, and no
exception. -/
theorem center_insufficient_skips (fuel : ℕ) (ii : Bool) (poly : List Pt)
    (spaceW spaceL aisleW lonToM cornerSize : ℚ) (centerRows target : ℕ)
    (h : centerFitsB (polyBounds poly) (spaceW / lonToM) (spaceL / latToM)
      (aisleW / latToM) (aisleW / lonToM) centerRows = false) :
    perimeterCenterSpaces fuel ii poly spaceW spaceL aisleW lonToM cornerSize
      centerRows target =
    (perimeterStrips fuel poly spaceW spaceL aisleW lonToM cornerSize target).map
      (fun acc => (acc, true)) := by
  unfold perimeterCenterSpaces
  cases hs : perimeterStrips fuel poly spaceW spaceL aisleW lonToM cornerSize target with
  | none => rfl
  | some acc => simp [h]

theorem center_insufficient_skips_witness :
    perimeterCenterSpaces 64 true C6poly (5/2) 5 4 111320 1 1 999999 =
    (perimeterStrips 64 C6poly (5/2) 5 4 111320 1 999999).map (fun acc => (acc, true)) :=
  center_insufficient_skips 64 true C6poly (5/2) 5 4 111320 1 1 999999
    (by with_unfolding_all decide)

/-- Claim C7: the multi-level extrusion produces exactly `numLevels` copies of the
packed set (total count = per-level count times the level count), and the
entry of 1-based level number `i + 1` sits at elevation `-H*(i+1)` for
underground structures and `H*i` aboveground. -/
theorem levels_replicate (spaces : List SpaceCoords) (numLevels : ℕ)
    (underground : Bool) (floorH : ℚ) (exploded : Bool) (maxRange : ℚ) :
    (allSpaces3D spaces numLevels underground floorH exploded maxRange).length =
      total_spaces_all_levels spaces.length numLevels ∧
    ∀ e ∈ allSpaces3D spaces numLevels underground floorH exploded maxRange,
      ∀ i : ℕ, e.levelNumber = i + 1 →
        e.elevation = if underground then -floorH * ((i : ℚ) + 1) else floorH * (i : ℚ) := by
  constructor
  · simp only [allSpaces3D, total_spaces_all_levels, List.length_flatMap,
      Function.comp_def, List.length_map]
    rw [List.map_const', List.sum_replicate, List.length_range, smul_eq_mul,
      Nat.mul_comm]
  · intro e he i hi
    rw [allSpaces3D, List.mem_flatMap] at he
    obtain ⟨level, _, he⟩ := he
    rw [List.mem_map] at he
    obtain ⟨s, _, hs⟩ := he
    have hlev : level = i := by
      have := congrArg Space3D.levelNumber hs
      simp at this
      omega
    subst hlev
    have := congrArg Space3D.elevation hs
    simp at this
    rw [← this, levelElev]

theorem levels_replicate_witness :
    (allSpaces3D [[⟨0, 0⟩]] 2 true 3 false 0).length = total_spaces_all_levels 1 2 ∧
    (⟨[⟨0, 0⟩], -6, 2⟩ : Space3D).elevation = if true then -(3 : ℚ) * ((1 : ℚ) + 1) else 3 * (1 : ℚ) := by
  refine ⟨(levels_replicate [[⟨0, 0⟩]] 2 true 3 false 0).1, ?_⟩
  exact (levels_replicate [[⟨0, 0⟩]] 2 true 3 false 0).2 ⟨[⟨0, 0⟩], -6, 2⟩
    (by with_unfolding_all decide) 1 rfl

/-- Claim C8: the packing engine is deterministic — two invocations on equal
argument records return the same ordered rectangle list. -/
theorem packing_deterministic (a b : PackArgs) (h : a = b) :
    packSpaces a = packSpaces b := by rw [h]

theorem packing_deterministic_witness : packSpaces C1args = packSpaces C1args :=
  packing_deterministic C1args C1args rfl

/-- The perimeter-center flag of the resolved orientation triple is false for
every orientation other than the perimeter+center selection. -/
theorem resolveFlags_pc_false (o : LayoutOrient) (asp : ℚ)
    (h : o ≠ LayoutOrient.perimeterCenter) : (resolveFlags o asp).2.2 = false := by
  cases o with
  | autoBestFit =>
    rw [resolveFlags]
    split
    · rfl
    · split <;> rfl
  | rowBased => rfl
  | columnBased => rfl
  | perimeterCenter => exact absurd rfl h

/-- Claim C9: with the Parallel parking type, every orientation choice other than
perimeter+center (Auto, Row-Based, Column-Based) produces the identical space
list — the parallel branch never consults the row/column flags. -/
theorem parallel_ignores_orient (fuel : ℕ) (o₁ o₂ : LayoutOrient) (poly : List Pt)
    (spaceW spaceL aisleW lonToM cornerSize : ℚ) (centerRows : ℕ) (ii : Bool)
    (s45 c45 : ℚ) (target : ℕ)
    (h1 : o₁ ≠ LayoutOrient.perimeterCenter) (h2 : o₂ ≠ LayoutOrient.perimeterCenter) :
    packSpaces ⟨fuel, .parallel, o₁, poly, spaceW, spaceL, aisleW, lonToM, cornerSize,
      centerRows, ii, s45, c45, target⟩ =
    packSpaces ⟨fuel, .parallel, o₂, poly, spaceW, spaceL, aisleW, lonToM, cornerSize,
      centerRows, ii, s45, c45, target⟩ := by
  rw [packSpaces, packSpaces]
  rw [resolveFlags_pc_false o₁ _ h1, resolveFlags_pc_false o₂ _ h2]

theorem parallel_ignores_orient_witness :
    packSpaces ⟨8, .parallel, .rowBased, C6poly, 5/2, 13/2, 7/2, 111320, 0, 1, false,
      0, 0, 999999⟩ =
    packSpaces ⟨8, .parallel, .columnBased, C6poly, 5/2, 13/2, 7/2, 111320, 0, 1, false,
      0, 0, 999999⟩ :=
  parallel_ignores_orient 8 .rowBased .columnBased C6poly (5/2) (13/2) (7/2) 111320 0 1
    false 0 0 999999 (by decide) (by decide)

/-- Each inner row scan appends at most one space per iteration and stops at
the first iteration whose append reaches the cap, so one outer iteration
raises the running count to at most `max (previous + 1) target`. -/
theorem rowOuterStep_length_le (poly : List Pt) (wdeg ldeg adeg maxx minx : ℚ)
    (angled : Bool) (sinA cosA : ℚ) (target fuel : ℕ)
    (s t : ℚ × ℕ × List SpaceCoords) (htb : Bool)
    (hst : rowOuterStep poly wdeg ldeg adeg maxx minx angled sinA cosA target fuel s =
      some (t, htb)) :
    t.2.2.length ≤ max (s.2.2.length + 1) target := by
  rw [rowOuterStep] at hst
  cases hin : fuelWhileM (fun u => decide (u.1 < maxx))
      (fun u => some (rowInnerStep poly wdeg ldeg s.1
        (if s.2.1 % 2 = 0 then 1 else -1) angled sinA cosA target u))
      fuel (minx, s.2.2) with
  | none => rw [hin] at hst; exact absurd hst (by simp)
  | some u =>
    rw [hin] at hst
    have ht : t.2.2 = u.2 := by
      cases hst
      rfl
    rw [ht]
    have hcap := fuelWhileM_cap (fun v : ℚ × List SpaceCoords => decide (v.1 < maxx))
      (fun v => some (rowInnerStep poly wdeg ldeg s.1
        (if s.2.1 % 2 = 0 then 1 else -1) angled sinA cosA target v))
      (fun v => v.2.length) (target - 1) ?_ ?_ fuel (minx, s.2.2) u hin
    · have hcap2 : u.2.length ≤ max (s.2.2.length + 1) (target - 1 + 1) := hcap
      omega
    · intro v w hw
      injection hw with hw
      have hw2 : w.1 = (rowInnerStep poly wdeg ldeg s.1
          (if s.2.1 % 2 = 0 then 1 else -1) angled sinA cosA target v).1 :=
        congrArg Prod.fst hw.symm
      rw [hw2, rowInnerStep]
      exact appendIf_length_le _ _ _
    · intro v w hw
      injection hw with hw
      have hsnd : (rowInnerStep poly wdeg ldeg s.1
          (if s.2.1 % 2 = 0 then 1 else -1) angled sinA cosA target v).2 = false :=
        congrArg Prod.snd hw
      rw [rowInnerStep] at hsnd
      simp only [decide_eq_false_iff_not, not_le] at hsnd
      have hw1 : w = (rowInnerStep poly wdeg ldeg s.1
          (if s.2.1 % 2 = 0 then 1 else -1) angled sinA cosA target v).1 :=
        (congrArg Prod.fst hw).symm
      have hw2 : w.2 = appendIf (insidePoly poly (centroid4 (create_space_coords v.1
          s.1 wdeg ldeg true (if s.2.1 % 2 = 0 then 1 else -1) sinA cosA angled))) v.2
          (create_space_coords v.1 s.1 wdeg ldeg true
            (if s.2.1 % 2 = 0 then 1 else -1) sinA cosA angled) := by
        rw [hw1]; rfl
      show w.2.length ≤ target - 1
      rw [hw2]
      omega

/-- Count bound for the whole row-based scan: starting from `acc0` the result
has at most `max target acc0.length + fuel` spaces — after the cap is hit,
each further row band adds at most one space. -/
theorem rowScan_length_le (angled : Bool) (sinA cosA : ℚ) (fuel : ℕ) (poly : List Pt)
    (spaceW spaceL aisleW lonToM : ℚ) (target : ℕ) (acc0 out : List SpaceCoords)
    (h : rowScan angled sinA cosA fuel poly spaceW spaceL aisleW lonToM target acc0 =
      some out) :
    out.length ≤ max target acc0.length + fuel := by
  rw [rowScan, Option.map_eq_some'] at h
  obtain ⟨s, hs, hout⟩ := h
  have := fuelWhileM_rows (fun v : ℚ × ℕ × List SpaceCoords =>
      decide (v.1 < (polyBounds poly).maxy))
    (rowOuterStep poly (spaceW / lonToM) (spaceL / latToM) (aisleW / latToM)
      (polyBounds poly).maxx (polyBounds poly).minx angled sinA cosA target fuel)
    (fun v => v.2.2.length) target ?_ fuel ((polyBounds poly).miny, 0, acc0) s hs
  · have hout2 : out = s.2.2 := hout.symm
    have hthis : s.2.2.length ≤ max target acc0.length + fuel := this
    rw [hout2]
    omega
  · intro v t ht
    exact rowOuterStep_length_le _ _ _ _ _ _ _ _ _ _ _ _ t.1 t.2 (by rw [← ht])

/-- Claim C1 counterexample: in conservative mode with a cap of one space on a
10 m by 12 m lot, the engine returns two spaces — the early-stop check runs
only after a space is appended and only breaks the inner loop, so the next
row band appends one more space before its own check fires. -/
theorem cap_exceeded_cex :
    (packSpaces C1args).map (fun p => p.1.length) = some 2 ∧ C1args.target = 1 := by
  constructor
  · with_unfolding_all decide
  · rfl

/-- Claim C1 amended: once the running count reaches the caller-supplied cap the
current scan loop stops immediately, but because the check runs after each
append and breaks only the inner loop, every later row band can append one
more space; the returned row-based count therefore never exceeds the cap
plus the number of outer iterations (bounded by the loop fuel). -/
theorem cap_overshoot_bound (fuel : ℕ) (poly : List Pt)
    (spaceW spaceL aisleW lonToM cornerSize : ℚ) (centerRows : ℕ) (ii : Bool)
    (s45 c45 : ℚ) (target k : ℕ)
    (h : (packSpaces ⟨fuel, .perpendicular, .rowBased, poly, spaceW, spaceL, aisleW,
      lonToM, cornerSize, centerRows, ii, s45, c45, target⟩).map
        (fun p => p.1.length) = some k) :
    k ≤ target + fuel := by
  rw [packSpaces] at h
  simp only [resolveFlags, if_true, if_false, Bool.false_eq_true, ite_false, ite_true] at h
  cases hr : rowScan false 0 0 fuel poly spaceW spaceL aisleW lonToM target [] with
  | none => rw [hr] at h; exact absurd h (by simp)
  | some out =>
    rw [hr] at h
    simp only [Option.map_some'] at h
    have hk : out.length = k := by
      injection h
    have := rowScan_length_le false 0 0 fuel poly spaceW spaceL aisleW lonToM target
      [] out hr
    simp only [List.length_nil] at this
    omega

theorem cap_overshoot_bound_witness :
    (packSpaces C1args).map (fun p => p.1.length) = some 2 ∧ 2 ≤ 1 + 64 :=
  ⟨by with_unfolding_all decide,
   cap_overshoot_bound 64 C1poly (5/2) 5 6 111320 0 1 false 0 0 1 2
     (by with_unfolding_all decide)⟩

/-- Growth bound used for the candidate-count bound: one outer iteration of
the row-based scan can append at most `fuel` spaces (one per inner
iteration). -/
theorem rowOuterStep_length_growth (poly : List Pt) (wdeg ldeg adeg maxx minx : ℚ)
    (angled : Bool) (sinA cosA : ℚ) (target fuel : ℕ)
    (s t : ℚ × ℕ × List SpaceCoords) (htb : Bool)
    (hst : rowOuterStep poly wdeg ldeg adeg maxx minx angled sinA cosA target fuel s =
      some (t, htb)) :
    t.2.2.length ≤ s.2.2.length + fuel := by
  rw [rowOuterStep] at hst
  cases hin : fuelWhileM (fun u => decide (u.1 < maxx))
      (fun u => some (rowInnerStep poly wdeg ldeg s.1
        (if s.2.1 % 2 = 0 then 1 else -1) angled sinA cosA target u))
      fuel (minx, s.2.2) with
  | none => rw [hin] at hst; exact absurd hst (by simp)
  | some u =>
    rw [hin] at hst
    have ht : t.2.2 = u.2 := by
      cases hst
      rfl
    rw [ht]
    have hg := fuelWhileM_growth (fun v : ℚ × List SpaceCoords => decide (v.1 < maxx))
      (fun v => some (rowInnerStep poly wdeg ldeg s.1
        (if s.2.1 % 2 = 0 then 1 else -1) angled sinA cosA target v))
      (fun v => v.2.length) 1 ?_ fuel (minx, s.2.2) u hin
    · have hg2 : u.2.length ≤ s.2.2.length + 1 * fuel := hg
      omega
    · intro v w hw
      injection hw with hw
      have hw2 : w.1 = (rowInnerStep poly wdeg ldeg s.1
          (if s.2.1 % 2 = 0 then 1 else -1) angled sinA cosA target v).1 :=
        congrArg Prod.fst hw.symm
      rw [hw2, rowInnerStep]
      exact appendIf_length_le _ _ _

/-- Candidate-count bound for the row-based scan: at most one space is
appended per inner iteration, so the count is bounded by the number of
scanned candidate positions. -/
theorem rowScan_length_growth (angled : Bool) (sinA cosA : ℚ) (fuel : ℕ)
    (poly : List Pt) (spaceW spaceL aisleW lonToM : ℚ) (target : ℕ)
    (acc0 out : List SpaceCoords)
    (h : rowScan angled sinA cosA fuel poly spaceW spaceL aisleW lonToM target acc0 =
      some out) :
    out.length ≤ acc0.length + fuel * fuel := by
  rw [rowScan, Option.map_eq_some'] at h
  obtain ⟨s, hs, hout⟩ := h
  have hg := fuelWhileM_growth (fun v : ℚ × ℕ × List SpaceCoords =>
      decide (v.1 < (polyBounds poly).maxy))
    (rowOuterStep poly (spaceW / lonToM) (spaceL / latToM) (aisleW / latToM)
      (polyBounds poly).maxx (polyBounds poly).minx angled sinA cosA target fuel)
    (fun v => v.2.2.length) fuel ?_ fuel ((polyBounds poly).miny, 0, acc0) s hs
  · have hout2 : out = s.2.2 := hout.symm
    have hg2 : s.2.2.length ≤ acc0.length + fuel * fuel := hg
    rw [hout2]
    omega
  · intro v t ht
    exact rowOuterStep_length_growth _ _ _ _ _ _ _ _ _ _ _ v t.1 t.2 (by rw [← ht])

/-- Claim C2 counterexample: a 2 m by 3 m polygon has planar area about 4.4 m², so
`floor(area / (2.5 * 5)) = 0`, yet the row-based engine packs one space in
it — the centroid-only acceptance admits a space that protrudes far outside
the polygon, violating the claimed area upper bound. -/
theorem area_bound_cex :
    (packSpaces C2args).map (fun p => p.1.length) = some 1 ∧
    ⌊estimatorAreaM2 C2poly / (C2args.spaceW * C2args.spaceL)⌋ = 0 := by
  constructor
  · with_unfolding_all decide
  · with_unfolding_all decide

/-- Claim C2 amended: the packed count is never negative, but the
`floor(area / (space_width * space_length))` upper bound does not hold
because acceptance tests only the centroid; what the scan does guarantee is
at most one appended space per scanned candidate position, bounding the
row-based count by the product of the outer and inner iteration bounds. -/
theorem count_nonneg_and_candidate_bound (fuel : ℕ) (poly : List Pt)
    (spaceW spaceL aisleW lonToM cornerSize : ℚ) (centerRows : ℕ) (ii : Bool)
    (s45 c45 : ℚ) (target k : ℕ)
    (h : (packSpaces ⟨fuel, .perpendicular, .rowBased, poly, spaceW, spaceL, aisleW,
      lonToM, cornerSize, centerRows, ii, s45, c45, target⟩).map
        (fun p => p.1.length) = some k) :
    (0 : ℤ) ≤ (k : ℤ) ∧ k ≤ fuel * fuel := by
  refine ⟨Int.natCast_nonneg k, ?_⟩
  rw [packSpaces] at h
  simp only [resolveFlags, if_true, if_false, Bool.false_eq_true, ite_false, ite_true] at h
  cases hr : rowScan false 0 0 fuel poly spaceW spaceL aisleW lonToM target [] with
  | none => rw [hr] at h; exact absurd h (by simp)
  | some out =>
    rw [hr] at h
    simp only [Option.map_some'] at h
    have hk : out.length = k := by
      injection h
    have := rowScan_length_growth false 0 0 fuel poly spaceW spaceL aisleW lonToM
      target [] out hr
    simp only [List.length_nil] at this
    omega

theorem count_nonneg_and_candidate_bound_witness :
    (packSpaces C2args).map (fun p => p.1.length) = some 1 ∧
    ((0 : ℤ) ≤ (1 : ℤ) ∧ 1 ≤ 64 * 64) :=
  ⟨by with_unfolding_all decide,
   count_nonneg_and_candidate_bound 64 C2poly (5/2) 5 6 111320 0 1 false 0 0 999999 1
     (by with_unfolding_all decide)⟩

/-- One strip/center iteration only ever appends a candidate that passed the
corner-conflict check, so freedom from corner conflicts is preserved. -/
theorem stripStep_preserves (poly : List Pt) (zones : List Bounds)
    (mk : ℚ → SpaceCoords) (inc : ℚ) (target : ℕ) (t : ℚ × List SpaceCoords)
    (hP : ∀ r ∈ t.2, conflicts_with_corners zones r = false) :
    ∀ r ∈ (stripStep poly zones mk inc target t).1.2,
      conflicts_with_corners zones r = false := by
  intro r hr
  simp only [stripStep] at hr
  rcases mem_appendIf hr with hmem | ⟨hreq, hcond⟩
  · exact hP r hmem
  · rw [Bool.and_eq_true] at hcond
    have := hcond.2
    rw [Bool.not_eq_eq_eq_not, Bool.not_true] at this
    rw [hreq]
    exact this

/-- A whole strip/center while loop preserves freedom from corner
conflicts. -/
theorem stripLoop_preserves (poly : List Pt) (zones : List Bounds)
    (mk : ℚ → SpaceCoords) (inc : ℚ) (target : ℕ) (lim : ℚ) (fuel : ℕ)
    (t0 u : ℚ × List SpaceCoords)
    (h : fuelWhileM (fun s => decide (s.1 < lim))
      (fun t => some (stripStep poly zones mk inc target t)) fuel t0 = some u)
    (hP : ∀ r ∈ t0.2, conflicts_with_corners zones r = false) :
    ∀ r ∈ u.2, conflicts_with_corners zones r = false := by
  refine fuelWhileM_inv _ _
    (fun s => ∀ r ∈ s.2, conflicts_with_corners zones r = false) ?_ fuel t0 u h hP
  intro s t ht hs
  injection ht with ht
  rw [← ht]
  exact stripStep_preserves poly zones mk inc target s hs

/-- No space returned by the four perimeter strips conflicts with a corner
exclusion zone. -/
theorem perimeterStrips_conflict_free (fuel : ℕ) (poly : List Pt)
    (spaceW spaceL aisleW lonToM cornerSize : ℚ) (target : ℕ)
    (acc : List SpaceCoords)
    (h : perimeterStrips fuel poly spaceW spaceL aisleW lonToM cornerSize target =
      some acc) :
    ∀ r ∈ acc, conflicts_with_corners
      (cornerZones (polyBounds poly) (cornerSize / lonToM) (cornerSize / latToM)) r =
        false := by
  rw [perimeterStrips] at h
  cases h1 : fuelWhileM (fun s => decide (s.1 < (polyBounds poly).maxx))
      (fun t => some (stripStep poly
        (cornerZones (polyBounds poly) (cornerSize / lonToM) (cornerSize / latToM))
        (mkTopStrip (spaceW / lonToM) (spaceL / latToM)
          ((polyBounds poly).maxy - spaceL / latToM - aisleW / latToM))
        (spaceW / lonToM) target t))
      fuel ((polyBounds poly).minx, []) with
  | none => simp only [h1] at h; exact absurd h (by simp)
  | some u1 =>
    simp only [h1] at h
    have hu1 := stripLoop_preserves _ _ _ _ _ _ _ _ _ h1 (by intro r hr; cases hr)
    cases h2 : fuelWhileM (fun s => decide (s.1 < (polyBounds poly).maxx))
        (fun t => some (stripStep poly
          (cornerZones (polyBounds poly) (cornerSize / lonToM) (cornerSize / latToM))
          (mkBottomStrip (spaceW / lonToM) (spaceL / latToM)
            ((polyBounds poly).miny + aisleW / latToM))
          (spaceW / lonToM) target t))
        fuel ((polyBounds poly).minx, u1.2) with
    | none => simp only [h2] at h; exact absurd h (by simp)
    | some u2 =>
      simp only [h2] at h
      have hu2 := stripLoop_preserves _ _ _ _ _ _ _ _ _ h2 hu1
      cases h3 : fuelWhileM (fun s => decide (s.1 < (polyBounds poly).maxy))
          (fun t => some (stripStep poly
            (cornerZones (polyBounds poly) (cornerSize / lonToM) (cornerSize / latToM))
            (mkSideStrip (spaceW / lonToM) (spaceL / latToM)
              ((polyBounds poly).minx + aisleW / lonToM))
            (spaceW / lonToM) target t))
          fuel ((polyBounds poly).miny, u2.2) with
      | none => simp only [h3] at h; exact absurd h (by simp)
      | some u3 =>
        simp only [h3] at h
        have hu3 := stripLoop_preserves _ _ _ _ _ _ _ _ _ h3 hu2
        rw [Option.map_eq_some'] at h
        obtain ⟨u4, h4, hout⟩ := h
        have hu4 := stripLoop_preserves _ _ _ _ _ _ _ _ _ h4 hu3
        have : acc = u4.2 := hout.symm
        rw [this]
        exact hu4

/-- The center-row placement loop preserves freedom from corner conflicts. -/
theorem centerRowLoop_conflict_free (fuel : ℕ) (poly : List Pt) (zones : List Bounds)
    (wdeg ldeg adeg cl cr : ℚ) (target : ℕ) :
    ∀ (ys : List ℚ) (acc out : List SpaceCoords),
      centerRowLoop fuel poly zones wdeg ldeg adeg cl cr target ys acc = some out →
      (∀ r ∈ acc, conflicts_with_corners zones r = false) →
      ∀ r ∈ out, conflicts_with_corners zones r = false := by
  intro ys
  induction ys with
  | nil =>
    intro acc out h hP
    rw [centerRowLoop] at h
    injection h with h
    rw [← h]
    exact hP
  | cons yc rest ih =>
    intro acc out h hP
    rw [centerRowLoop] at h
    cases h1 : fuelWhileM (fun s => decide (s.1 < cr))
        (fun t => some (stripStep poly zones (mkCenterTop wdeg ldeg adeg yc) wdeg target t))
        fuel (cl, acc) with
    | none => simp only [h1] at h; exact absurd h (by simp)
    | some u1 =>
      simp only [h1] at h
      have hu1 := stripLoop_preserves _ _ _ _ _ _ _ _ _ h1 hP
      cases h2 : fuelWhileM (fun s => decide (s.1 < cr))
          (fun t => some (stripStep poly zones (mkCenterBottom wdeg ldeg adeg yc) wdeg target t))
          fuel (cl, u1.2) with
      | none => simp only [h2] at h; exact absurd h (by simp)
      | some u2 =>
        simp only [h2] at h
        have hu2 := stripLoop_preserves _ _ _ _ _ _ _ _ _ h2 hu1
        exact ih u2.2 out h hu2

/-- Claim C4: under the perimeter+center strategy no returned rectangle conflicts
with any of the four corner exclusion zones — it neither intersects a zone
nor has its centroid inside one — for every polygon and corner island size,
and independently of the display-only corner-islands flag. -/
theorem corner_exclusion (fuel : ℕ) (ii : Bool) (poly : List Pt)
    (spaceW spaceL aisleW lonToM cornerSize : ℚ) (centerRows target : ℕ)
    (sp : List SpaceCoords) (wflag : Bool)
    (h : perimeterCenterSpaces fuel ii poly spaceW spaceL aisleW lonToM cornerSize
      centerRows target = some (sp, wflag)) :
    ∀ r ∈ sp, conflicts_with_corners
      (cornerZones (polyBounds poly) (cornerSize / lonToM) (cornerSize / latToM)) r =
        false := by
  rw [perimeterCenterSpaces] at h
  cases hs : perimeterStrips fuel poly spaceW spaceL aisleW lonToM cornerSize target with
  | none => simp only [hs] at h; exact absurd h (by simp)
  | some acc =>
    simp only [hs] at h
    have hacc := perimeterStrips_conflict_free fuel poly spaceW spaceL aisleW lonToM
      cornerSize target acc hs
    by_cases hfit : centerFitsB (polyBounds poly) (spaceW / lonToM) (spaceL / latToM)
        (aisleW / latToM) (aisleW / lonToM) centerRows = true
    · rw [if_pos hfit] at h
      rw [Option.map_eq_some'] at h
      obtain ⟨a, ha, hpair⟩ := h
      have hsp : sp = a := (congrArg Prod.fst hpair).symm
      rw [hsp]
      exact centerRowLoop_conflict_free fuel poly _ _ _ _ _ _ target _ acc a ha hacc
    · rw [if_neg hfit] at h
      injection h with h
      have hsp : sp = acc := (congrArg Prod.fst h).symm
      rw [hsp]
      exact hacc

theorem corner_exclusion_witness :
    perimeterCenterSpaces 16 true C4poly (5/2) 5 4 111320 1 1 999999 =
      some ([], true) ∧
    ∀ r ∈ ([] : List SpaceCoords), conflicts_with_corners
      (cornerZones (polyBounds C4poly) (1 / 111320) (1 / latToM)) r = false := by
  have h : perimeterCenterSpaces 16 true C4poly (5/2) 5 4 111320 1 1 999999 =
      some ([], true) := by
    with_unfolding_all decide
  exact ⟨h, corner_exclusion 16 true C4poly (5/2) 5 4 111320 1 1 999999
    [] true h⟩

theorem latToM_pos : (0 : ℚ) < latToM := by norm_num [latToM]

/-- The row-based scan returns a result (no fuel exhaustion) whenever the
step quantities are positive and the fuel exceeds both iteration bounds. -/
theorem rowScan_isSome (angled : Bool) (sinA cosA : ℚ) (poly : List Pt)
    (spaceW spaceL aisleW lonToM : ℚ) (target : ℕ) (acc0 : List SpaceCoords)
    (hw : 0 < spaceW / lonToM) (ha : 0 < aisleW / latToM)
    (hcos : 0 ≤ (if angled then spaceL / latToM * cosA else spaceL / latToM))
    (fuel : ℕ)
    (h1 : ⌈((polyBounds poly).maxy - (polyBounds poly).miny) / (aisleW / latToM)⌉₊ < fuel)
    (h2 : ⌈((polyBounds poly).maxx - (polyBounds poly).minx) / (spaceW / lonToM)⌉₊ < fuel) :
    (rowScan angled sinA cosA fuel poly spaceW spaceL aisleW lonToM target acc0).isSome =
      true := by
  rw [rowScan, Option.isSome_map']
  refine fuelWhileM_total_inc (polyBounds poly).maxy (aisleW / latToM) ha
    (rowOuterStep poly (spaceW / lonToM) (spaceL / latToM) (aisleW / latToM)
      (polyBounds poly).maxx (polyBounds poly).minx angled sinA cosA target fuel)
    ?_ fuel ((polyBounds poly).miny, 0, acc0) h1
  intro t hlt
  have hin := fuelWhileM_total_inc (polyBounds poly).maxx (spaceW / lonToM) hw
    (fun u => some (rowInnerStep poly (spaceW / lonToM) (spaceL / latToM) t.1
      (if t.2.1 % 2 = 0 then 1 else -1) angled sinA cosA target u)) ?_ fuel
    ((polyBounds poly).minx, t.2.2) h2
  · obtain ⟨u, hu⟩ := Option.isSome_iff_exists.mp hin
    refine ⟨((t.1 + (if (if t.2.1 % 2 = 0 then (1 : ℤ) else -1) = 1
        then (if angled then spaceL / latToM * cosA else spaceL / latToM) else 0) +
        aisleW / latToM, t.2.1 + 1, u.2), false), ?_, ?_⟩
    · rw [rowOuterStep, hu]
    · have hnn : (0 : ℚ) ≤ (if (if t.2.1 % 2 = 0 then (1 : ℤ) else -1) = 1
          then (if angled then spaceL / latToM * cosA else spaceL / latToM) else 0) := by
        split
        · exact hcos
        · exact le_refl 0
      simp only
      linarith
  · intro u hu
    exact ⟨rowInnerStep poly (spaceW / lonToM) (spaceL / latToM) t.1
      (if t.2.1 % 2 = 0 then 1 else -1) angled sinA cosA target u, rfl, by
        rw [rowInnerStep]⟩

/-- The column-based scan returns a result whenever the step quantities are
positive and the fuel exceeds both iteration bounds. -/
theorem colScan_isSome (angled : Bool) (sinA cosA : ℚ) (poly : List Pt)
    (spaceW spaceL aisleW lonToM : ℚ) (target : ℕ) (acc0 : List SpaceCoords)
    (hw : 0 < spaceW / lonToM) (ha : 0 < aisleW / lonToM)
    (hcos : 0 ≤ (if angled then spaceL / latToM * cosA else spaceL / latToM))
    (fuel : ℕ)
    (h1 : ⌈((polyBounds poly).maxx - (polyBounds poly).minx) / (aisleW / lonToM)⌉₊ < fuel)
    (h2 : ⌈((polyBounds poly).maxy - (polyBounds poly).miny) / (spaceW / lonToM)⌉₊ < fuel) :
    (colScan angled sinA cosA fuel poly spaceW spaceL aisleW lonToM target acc0).isSome =
      true := by
  rw [colScan, Option.isSome_map']
  refine fuelWhileM_total_inc (polyBounds poly).maxx (aisleW / lonToM) ha
    (colOuterStep poly (spaceW / lonToM) (spaceL / latToM) (aisleW / lonToM)
      (polyBounds poly).maxy (polyBounds poly).miny angled sinA cosA target fuel)
    ?_ fuel ((polyBounds poly).minx, 0, acc0) h1
  intro t hlt
  have hin := fuelWhileM_total_inc (polyBounds poly).maxy (spaceW / lonToM) hw
    (fun u => some (colInnerStep poly (spaceW / lonToM) (spaceL / latToM) t.1
      (if t.2.1 % 2 = 0 then 1 else -1) angled sinA cosA target u)) ?_ fuel
    ((polyBounds poly).miny, t.2.2) h2
  · obtain ⟨u, hu⟩ := Option.isSome_iff_exists.mp hin
    refine ⟨((t.1 + (if (if t.2.1 % 2 = 0 then (1 : ℤ) else -1) = 1
        then (if angled then spaceL / latToM * cosA else spaceL / latToM) else 0) +
        aisleW / lonToM, t.2.1 + 1, u.2), false), ?_, ?_⟩
    · rw [colOuterStep, hu]
    · have hnn : (0 : ℚ) ≤ (if (if t.2.1 % 2 = 0 then (1 : ℤ) else -1) = 1
          then (if angled then spaceL / latToM * cosA else spaceL / latToM) else 0) := by
        split
        · exact hcos
        · exact le_refl 0
      simp only
      linarith
  · intro u hu
    exact ⟨colInnerStep poly (spaceW / lonToM) (spaceL / latToM) t.1
      (if t.2.1 % 2 = 0 then 1 else -1) angled sinA cosA target u, rfl, by
        rw [colInnerStep]⟩

/-- The parallel-parking layout returns a result whenever the space length
step is positive and the fuel exceeds both edge-scan bounds. -/
theorem parallelSpaces_isSome (poly : List Pt) (spaceW spaceL lonToM : ℚ)
    (target : ℕ) (hl : 0 < spaceL / latToM) (fuel : ℕ)
    (h1 : ⌈((polyBounds poly).maxx - (polyBounds poly).minx) / (spaceL / latToM)⌉₊ < fuel)
    (h2 : ⌈((polyBounds poly).maxy - (polyBounds poly).miny) / (spaceL / latToM)⌉₊ < fuel) :
    (parallelSpaces fuel poly spaceW spaceL lonToM target).isSome = true := by
  rw [parallelSpaces]
  have ha := fuelWhileM_total_inc (polyBounds poly).maxx (spaceL / latToM) hl
    (fun t => some (parStep1 poly (spaceW / lonToM) (spaceL / latToM)
      (polyBounds poly).miny (polyBounds poly).maxy target t))
    (fun t ht => ⟨parStep1 poly (spaceW / lonToM) (spaceL / latToM)
      (polyBounds poly).miny (polyBounds poly).maxy target t, rfl, by rw [parStep1]⟩)
    fuel ((polyBounds poly).minx, []) h1
  obtain ⟨u, hu⟩ := Option.isSome_iff_exists.mp ha
  simp only [hu]
  exact Option.isSome_map'.trans
    (fuelWhileM_total_inc (polyBounds poly).maxy (spaceL / latToM) hl
      (fun t => some (parStep2 poly (spaceW / lonToM) (spaceL / latToM)
        (polyBounds poly).minx (polyBounds poly).maxx target t))
      (fun t ht => ⟨parStep2 poly (spaceW / lonToM) (spaceL / latToM)
        (polyBounds poly).minx (polyBounds poly).maxx target t, rfl, by rw [parStep2]⟩)
      fuel ((polyBounds poly).miny, u.2) h2)

/-- A strip/center while loop returns a result whenever its increment is
positive and the fuel exceeds the scan bound. -/
theorem stripLoop_isSome (poly : List Pt) (zones : List Bounds)
    (mk : ℚ → SpaceCoords) (inc lim x0 : ℚ) (target : ℕ) (hinc : 0 < inc)
    (acc : List SpaceCoords) (fuel : ℕ) (h : ⌈(lim - x0) / inc⌉₊ < fuel) :
    (fuelWhileM (fun s => decide (s.1 < lim))
      (fun t => some (stripStep poly zones mk inc target t)) fuel (x0, acc)).isSome =
      true :=
  fuelWhileM_total_inc lim inc hinc _
    (fun t ht => ⟨stripStep poly zones mk inc target t, rfl, by rw [stripStep]⟩)
    fuel (x0, acc) h

/-- The four perimeter strips return a result whenever the space width step
is positive and the fuel exceeds both scan bounds. -/
theorem perimeterStrips_isSome (fuel : ℕ) (poly : List Pt)
    (spaceW spaceL aisleW lonToM cornerSize : ℚ) (target : ℕ)
    (hw : 0 < spaceW / lonToM)
    (h1 : ⌈((polyBounds poly).maxx - (polyBounds poly).minx) / (spaceW / lonToM)⌉₊ < fuel)
    (h2 : ⌈((polyBounds poly).maxy - (polyBounds poly).miny) / (spaceW / lonToM)⌉₊ < fuel) :
    (perimeterStrips fuel poly spaceW spaceL aisleW lonToM cornerSize target).isSome =
      true := by
  rw [perimeterStrips]
  obtain ⟨u1, hu1⟩ := Option.isSome_iff_exists.mp
    (stripLoop_isSome poly
      (cornerZones (polyBounds poly) (cornerSize / lonToM) (cornerSize / latToM))
      (mkTopStrip (spaceW / lonToM) (spaceL / latToM)
        ((polyBounds poly).maxy - spaceL / latToM - aisleW / latToM))
      (spaceW / lonToM) (polyBounds poly).maxx (polyBounds poly).minx target hw [] fuel h1)
  simp only [hu1]
  obtain ⟨u2, hu2⟩ := Option.isSome_iff_exists.mp
    (stripLoop_isSome poly
      (cornerZones (polyBounds poly) (cornerSize / lonToM) (cornerSize / latToM))
      (mkBottomStrip (spaceW / lonToM) (spaceL / latToM)
        ((polyBounds poly).miny + aisleW / latToM))
      (spaceW / lonToM) (polyBounds poly).maxx (polyBounds poly).minx target hw u1.2 fuel h1)
  simp only [hu2]
  obtain ⟨u3, hu3⟩ := Option.isSome_iff_exists.mp
    (stripLoop_isSome poly
      (cornerZones (polyBounds poly) (cornerSize / lonToM) (cornerSize / latToM))
      (mkSideStrip (spaceW / lonToM) (spaceL / latToM)
        ((polyBounds poly).minx + aisleW / lonToM))
      (spaceW / lonToM) (polyBounds poly).maxy (polyBounds poly).miny target hw u2.2 fuel h2)
  simp only [hu3]
  exact Option.isSome_map'.trans
    (stripLoop_isSome poly
      (cornerZones (polyBounds poly) (cornerSize / lonToM) (cornerSize / latToM))
      (mkSideStrip (spaceW / lonToM) (spaceL / latToM)
        ((polyBounds poly).maxx - spaceL / latToM - aisleW / lonToM))
      (spaceW / lonToM) (polyBounds poly).maxy (polyBounds poly).miny target hw u3.2 fuel h2)

/-- The center-row loop returns a result whenever the space width step is
positive and the fuel exceeds the center scan bound. -/
theorem centerRowLoop_isSome (fuel : ℕ) (poly : List Pt) (zones : List Bounds)
    (wdeg ldeg adeg cl cr : ℚ) (target : ℕ) (hw : 0 < wdeg)
    (h : ⌈(cr - cl) / wdeg⌉₊ < fuel) :
    ∀ (ys : List ℚ) (acc : List SpaceCoords),
      (centerRowLoop fuel poly zones wdeg ldeg adeg cl cr target ys acc).isSome = true := by
  intro ys
  induction ys with
  | nil => intro acc; rw [centerRowLoop]; rfl
  | cons yc rest ih =>
    intro acc
    rw [centerRowLoop]
    obtain ⟨u1, hu1⟩ := Option.isSome_iff_exists.mp
      (stripLoop_isSome poly zones (mkCenterTop wdeg ldeg adeg yc) wdeg cr cl target hw
        acc fuel h)
    simp only [hu1]
    obtain ⟨u2, hu2⟩ := Option.isSome_iff_exists.mp
      (stripLoop_isSome poly zones (mkCenterBottom wdeg ldeg adeg yc) wdeg cr cl target hw
        u1.2 fuel h)
    simp only [hu2]
    exact ih u2.2

/-- The perimeter+center strategy never fails once its scan bounds are all
below the fuel. -/
theorem perimeterCenterSpaces_isSome (fuel : ℕ) (ii : Bool) (poly : List Pt)
    (spaceW spaceL aisleW lonToM cornerSize : ℚ) (centerRows target : ℕ)
    (hw : 0 < spaceW / lonToM)
    (h1 : ⌈((polyBounds poly).maxx - (polyBounds poly).minx) / (spaceW / lonToM)⌉₊ < fuel)
    (h2 : ⌈((polyBounds poly).maxy - (polyBounds poly).miny) / (spaceW / lonToM)⌉₊ < fuel)
    (h3 : ⌈((centerBoundsOf (polyBounds poly) (spaceL / latToM) (aisleW / latToM)
        (aisleW / lonToM)).maxx -
      (centerBoundsOf (polyBounds poly) (spaceL / latToM) (aisleW / latToM)
        (aisleW / lonToM)).minx) / (spaceW / lonToM)⌉₊ < fuel) :
    (perimeterCenterSpaces fuel ii poly spaceW spaceL aisleW lonToM cornerSize
      centerRows target).isSome = true := by
  rw [perimeterCenterSpaces]
  obtain ⟨acc, hacc⟩ := Option.isSome_iff_exists.mp
    (perimeterStrips_isSome fuel poly spaceW spaceL aisleW lonToM cornerSize target
      hw h1 h2)
  simp only [hacc]
  by_cases hfit : centerFitsB (polyBounds poly) (spaceW / lonToM) (spaceL / latToM)
      (aisleW / latToM) (aisleW / lonToM) centerRows = true
  · rw [if_pos hfit, Option.isSome_map']
    exact centerRowLoop_isSome fuel poly _ _ _ _ _ _ target hw h3 _ acc
  · rw [if_neg hfit]
    rfl

/-- Claim C10: every packing scan loop terminates.  With positive space width,
space length and aisle width, and a positive longitude conversion factor
(`111320 * cos(center_lat)` is positive exactly when the center latitude is
strictly between -90 and 90 degrees), some fuel value makes every strategy
of the dispatcher return a result — in particular the odd row bands, which
advance by the aisle width alone, still make progress because the aisle
width is positive.  For the angled strategy the stored cosine of 45 degrees
is additionally assumed nonnegative, as the floating-point value is. -/
theorem packing_terminates (pt : ParkingType) (o : LayoutOrient) (poly : List Pt)
    (spaceW spaceL aisleW lonToM cornerSize : ℚ) (centerRows : ℕ) (ii : Bool)
    (s45 c45 : ℚ) (target : ℕ)
    (hw : 0 < spaceW) (hl : 0 < spaceL) (ha : 0 < aisleW) (hm : 0 < lonToM)
    (hc : 0 ≤ c45) :
    ∃ fuel, (packSpaces ⟨fuel, pt, o, poly, spaceW, spaceL, aisleW, lonToM,
      cornerSize, centerRows, ii, s45, c45, target⟩).isSome = true := by
  have hwdeg : 0 < spaceW / lonToM := div_pos hw hm
  have hldeg : 0 < spaceL / latToM := div_pos hl latToM_pos
  have hadeg : 0 < aisleW / latToM := div_pos ha latToM_pos
  have hadegLon : 0 < aisleW / lonToM := div_pos ha hm
  obtain ⟨N, hN⟩ : ∃ N : ℕ,
      N = ⌈((polyBounds poly).maxx - (polyBounds poly).minx) / (spaceW / lonToM)⌉₊ +
        ⌈((polyBounds poly).maxy - (polyBounds poly).miny) / (aisleW / latToM)⌉₊ +
        ⌈((polyBounds poly).maxy - (polyBounds poly).miny) / (spaceW / lonToM)⌉₊ +
        ⌈((polyBounds poly).maxx - (polyBounds poly).minx) / (aisleW / lonToM)⌉₊ +
        ⌈((polyBounds poly).maxx - (polyBounds poly).minx) / (spaceL / latToM)⌉₊ +
        ⌈((polyBounds poly).maxy - (polyBounds poly).miny) / (spaceL / latToM)⌉₊ +
        ⌈((centerBoundsOf (polyBounds poly) (spaceL / latToM) (aisleW / latToM)
            (aisleW / lonToM)).maxx -
          (centerBoundsOf (polyBounds poly) (spaceL / latToM) (aisleW / latToM)
            (aisleW / lonToM)).minx) / (spaceW / lonToM)⌉₊ + 1 := ⟨_, rfl⟩
  refine ⟨N, ?_⟩
  rw [packSpaces]
  dsimp only
  cases hpc : (resolveFlags o (aspectOf (polyBounds poly))).2.2 with
  | true =>
    rw [if_pos rfl]
    exact perimeterCenterSpaces_isSome N ii poly spaceW spaceL aisleW lonToM cornerSize
      centerRows target hwdeg (by omega) (by omega) (by omega)
  | false =>
    rw [if_neg (by simp)]
    cases pt with
    | parallel =>
      dsimp only
      rw [Option.isSome_map']
      exact parallelSpaces_isSome poly spaceW spaceL lonToM target hldeg N
        (by omega) (by omega)
    | angled =>
      dsimp only
      cases hr : (resolveFlags o (aspectOf (polyBounds poly))).1 with
      | true =>
        rw [if_pos rfl]
        obtain ⟨acc1, hacc1⟩ := Option.isSome_iff_exists.mp
          (rowScan_isSome true s45 c45 poly spaceW spaceL aisleW lonToM target []
            hwdeg hadeg (by simpa using mul_nonneg hldeg.le hc) N (by omega) (by omega))
        simp only [hacc1]
        cases hcl : (resolveFlags o (aspectOf (polyBounds poly))).2.1 with
        | true =>
          rw [if_pos rfl, Option.isSome_map']
          exact colScan_isSome true s45 c45 poly spaceW spaceL aisleW lonToM target acc1
            hwdeg hadegLon (by simpa using mul_nonneg hldeg.le hc) N (by omega) (by omega)
        | false =>
          rw [if_neg (by simp)]
          rfl
      | false =>
        rw [if_neg (by simp)]
        dsimp only
        cases hcl : (resolveFlags o (aspectOf (polyBounds poly))).2.1 with
        | true =>
          rw [if_pos rfl, Option.isSome_map']
          exact colScan_isSome true s45 c45 poly spaceW spaceL aisleW lonToM target []
            hwdeg hadegLon (by simpa using mul_nonneg hldeg.le hc) N (by omega) (by omega)
        | false =>
          rw [if_neg (by simp)]
          rfl
    | perpendicular =>
      dsimp only
      cases hr : (resolveFlags o (aspectOf (polyBounds poly))).1 with
      | true =>
        rw [if_pos rfl]
        obtain ⟨acc1, hacc1⟩ := Option.isSome_iff_exists.mp
          (rowScan_isSome false 0 0 poly spaceW spaceL aisleW lonToM target []
            hwdeg hadeg (by simpa using hldeg.le) N (by omega) (by omega))
        simp only [hacc1]
        cases hcl : (resolveFlags o (aspectOf (polyBounds poly))).2.1 with
        | true =>
          rw [if_pos rfl, Option.isSome_map']
          exact colScan_isSome false 0 0 poly spaceW spaceL aisleW lonToM target acc1
            hwdeg hadegLon (by simpa using hldeg.le) N (by omega) (by omega)
        | false =>
          rw [if_neg (by simp)]
          rfl
      | false =>
        rw [if_neg (by simp)]
        dsimp only
        cases hcl : (resolveFlags o (aspectOf (polyBounds poly))).2.1 with
        | true =>
          rw [if_pos rfl, Option.isSome_map']
          exact colScan_isSome false 0 0 poly spaceW spaceL aisleW lonToM target []
            hwdeg hadegLon (by simpa using hldeg.le) N (by omega) (by omega)
        | false =>
          rw [if_neg (by simp)]
          rfl
    | compact =>
      dsimp only
      cases hr : (resolveFlags o (aspectOf (polyBounds poly))).1 with
      | true =>
        rw [if_pos rfl]
        obtain ⟨acc1, hacc1⟩ := Option.isSome_iff_exists.mp
          (rowScan_isSome false 0 0 poly spaceW spaceL aisleW lonToM target []
            hwdeg hadeg (by simpa using hldeg.le) N (by omega) (by omega))
        simp only [hacc1]
        cases hcl : (resolveFlags o (aspectOf (polyBounds poly))).2.1 with
        | true =>
          rw [if_pos rfl, Option.isSome_map']
          exact colScan_isSome false 0 0 poly spaceW spaceL aisleW lonToM target acc1
            hwdeg hadegLon (by simpa using hldeg.le) N (by omega) (by omega)
        | false =>
          rw [if_neg (by simp)]
          rfl
      | false =>
        rw [if_neg (by simp)]
        dsimp only
        cases hcl : (resolveFlags o (aspectOf (polyBounds poly))).2.1 with
        | true =>
          rw [if_pos rfl, Option.isSome_map']
          exact colScan_isSome false 0 0 poly spaceW spaceL aisleW lonToM target []
            hwdeg hadegLon (by simpa using hldeg.le) N (by omega) (by omega)
        | false =>
          rw [if_neg (by simp)]
          rfl

theorem packing_terminates_witness :
    (0 : ℚ) < 5/2 ∧ (0 : ℚ) < 5 ∧ (0 : ℚ) < 6 ∧ (0 : ℚ) < 111320 ∧ (0 : ℚ) ≤ 0 ∧
    ∃ fuel, (packSpaces ⟨fuel, .perpendicular, .rowBased, C1poly, 5/2, 5, 6, 111320,
      0, 1, false, 0, 0, 1⟩).isSome = true :=
  ⟨by norm_num, by norm_num, by norm_num, by norm_num, le_refl 0,
   packing_terminates .perpendicular .rowBased C1poly (5/2) 5 6 111320 0 1 false 0 0 1
     (by norm_num) (by norm_num) (by norm_num) (by norm_num) (le_refl 0)⟩
